import Mathlib

/-!
Shallow embedding of the sloggergo structured-logging core
(logger.go, async.go, sink/file.go) and proofs about it.

Modelling conventions:
* Go `map[string]any` values are modelled by the small inductive `Val`;
  maps are association lists manipulated by `setKV` (Go `m[k] = v`) and
  read by `getKV` (Go `m[k]`), so lookup semantics match Go maps.
* Side effects of one `Logger.log` call (hook invocations, sink writes,
  error-handler invocations, `os.Exit(1)`) are recorded as a trace of
  `Event`s in program order.
* `time.Now().Format(...)` and `getCaller` are environmental inputs:
  `log` receives the already-formatted `time` string and the caller
  string as parameters.
* A sink's `Write` is modelled by its observable result
  (`Entry → Option String`, `some err` = failure); a hook by
  `Option Ctx → Entry → Except String Entry` (Go hooks mutate the entry
  in place and return an error; the `Except` result carries the mutated
  entry on success). The error handler is modelled by whether one is
  configured (`Bool`); each invocation appears in the trace.
-/

namespace Sloggergo

/-- A `context.Context` handle is opaque to the core; a token suffices.
A Go `nil` context is `Option.none` at use sites. -/
abbrev Ctx := Nat

/-- Field values (`any` in Go), restricted to a concrete universe so that
entries and traces have decidable equality. -/
inductive Val where
  | str (s : String)
  | int (n : Int)
  | bool (b : Bool)
deriving DecidableEq, Repr

/-- An attribute (`slog.Attr`): a key/value attribute passed at a call site or produced
by a context extractor. -/
structure Attr where
  key : String
  val : Val
deriving DecidableEq, Repr

/-- Go map assignment `m[k] = v` on the association-list model:
replace the first binding of `k`, else append. -/
def setKV : List (String × Val) → String → Val → List (String × Val)
  | [], k, v => [(k, v)]
  | (k', v') :: rest, k, v =>
    if k' = k then (k, v) :: rest else (k', v') :: setKV rest k v

/-- Go map read `m[k]`. -/
def getKV : List (String × Val) → String → Option Val
  | [], _ => none
  | (k', v') :: rest, k => if k' = k then some v' else getKV rest k

/-- `maps.Copy(dst, src)`: assign every binding of `src` into `dst`. -/
def mapCopy (dst src : List (String × Val)) : List (String × Val) :=
  src.foldl (fun m p => setKV m p.1 p.2) dst

/-- Severity `Level` from logger.go: ordered severity enumeration. -/
inductive Level where
  | debug
  | info
  | warn
  | error
  | fatal
deriving DecidableEq, Repr

/-- The integer value of a `Level` (Go `Level int`, iota order). -/
def Level.toNat : Level → Nat
  | .debug => 0
  | .info => 1
  | .warn => 2
  | .error => 3
  | .fatal => 4

/-- Rendering `Level.String()` from logger.go. -/
def Level.toString : Level → String
  | .debug => "DEBUG"
  | .info => "INFO"
  | .warn => "WARN"
  | .error => "ERROR"
  | .fatal => "FATAL"

/-- Parsing (`ParseLevel` in logger.go): exact-string switch with an Info default. -/
def ParseLevel (s : String) : Level :=
  match s with
  | "debug" | "DEBUG" => .debug
  | "info" | "INFO" => .info
  | "warn" | "WARN" | "warning" | "WARNING" => .warn
  | "error" | "ERROR" => .error
  | "fatal" | "FATAL" => .fatal
  | _ => .info

/-- The record type (`formatter.Entry`) handed to hooks and sinks. -/
structure Entry where
  time : String
  level : String
  message : String
  fields : List (String × Val)
  caller : String
  ctx : Option Ctx
deriving DecidableEq, Repr

/-- A hook (`Hook` in logger.go): may mutate the entry or veto it. -/
abbrev Hook := Option Ctx → Entry → Except String Entry

/-- A sink's observable `Write` behaviour: `some err` means the write
returned an error. -/
abbrev Sink := Entry → Option String

/-- A context extractor (`ContextExtractor` in logger.go). -/
abbrev Extractor := Ctx → List Attr

/-- One observable side effect of a dispatch. -/
inductive Event where
  /-- hook number `idx` (registration order) was invoked -/
  | hookRun (idx : Nat)
  /-- sink number `idx` (registration order) received `Write(e)` -/
  | write (idx : Nat) (e : Entry)
  /-- the configured error handler was invoked with `err` -/
  | handleErr (err : String)
  /-- the process exits (`os.Exit(1)`, Fatal level) -/
  | exitProcess
deriving DecidableEq, Repr

/-- The `Logger` struct from logger.go. `errorHandler` records whether a handler is
configured; its invocations are traced as `Event.handleErr`. -/
structure Logger where
  level : Level
  sinks : List Sink
  fields : List (String × Val)
  addCaller : Bool
  timeFormat : String
  errorHandler : Bool
  extractor : Option Extractor
  hooks : List Hook

/-- Steps 2–3 of `Logger.log`: context extraction, field merge and record
construction (logger.go lines 232–270). -/
def Logger.buildEntry (l : Logger) (ctx : Option Ctx) (level : Level)
    (msg : String) (keyvals : List Attr) (time caller : String) : Entry :=
  let keyvals :=
    match ctx, l.extractor with
    | some c, some ext =>
      let ctxAttrs := ext c
      if ctxAttrs.length > 0 then ctxAttrs ++ keyvals else keyvals
    | _, _ => keyvals
  let fields := mapCopy [] l.fields
  let fields := keyvals.foldl (fun m a => setKV m a.key a.val) fields
  let callerStr := if l.addCaller then caller else ""
  { time := time, level := level.toString, message := msg,
    fields := fields, caller := callerStr, ctx := ctx }

/-- The hook loop of `Logger.log`: run hooks in order, stopping at the
first error; returns the invocation trace and the outcome. -/
def runHooks (ctx : Option Ctx) : Nat → List Hook → Entry →
    List Event × Except String Entry
  | _, [], e => ([], .ok e)
  | i, h :: hs, e =>
    match h ctx e with
    | .error err => ([.hookRun i], .error err)
    | .ok e' =>
      let r := runHooks ctx (i + 1) hs e'
      (.hookRun i :: r.1, r.2)

/-- Events produced by one sink write's error path: the handler is called
exactly when the write failed and a handler is configured. -/
def errEvents (handlerSet : Bool) : Option String → List Event
  | none => []
  | some err => if handlerSet then [.handleErr err] else []

/-- The sink loop of `Logger.log`: write to every sink in registration
order; a failure is reported to the error handler and the loop continues. -/
def fanOut (handlerSet : Bool) : Nat → List Sink → Entry → List Event
  | _, [], _ => []
  | i, s :: ss, e =>
    .write i e :: (errEvents handlerSet (s e) ++ fanOut handlerSet (i + 1) ss e)

/-- Dispatch (`Logger.log`, logger.go lines 222–292) as a trace of events. -/
def Logger.log (l : Logger) (ctx : Option Ctx) (level : Level) (msg : String)
    (keyvals : List Attr) (time caller : String) : List Event :=
  if level.toNat < l.level.toNat then []
  else
    let entry := l.buildEntry ctx level msg keyvals time caller
    let r := runHooks ctx 0 l.hooks entry
    match r.2 with
    | .error _ => r.1
    | .ok entry =>
      r.1 ++ fanOut l.errorHandler 0 l.sinks entry ++
        (if level = .fatal then [.exitProcess] else [])

/-- The pair loop of `Logger.With`: walk `keyvals` two at a time, assigning
`fields[key] = value` when the key is a string, skipping the pair otherwise,
and ignoring a trailing odd element. -/
def addPairs : List (String × Val) → List Val → List (String × Val)
  | fields, [] => fields
  | fields, [_] => fields
  | fields, k :: v :: rest =>
    match k with
    | .str s => addPairs (setKV fields s v) rest
    | _ => addPairs fields rest

/-- Derivation (`Logger.With`, logger.go lines 171–191): child logger with copied
fields plus the given pairs; the struct literal sets only level, sinks,
fields, addCaller and timeFormat, so hooks, extractor and errorHandler
take their zero values. -/
def Logger.With (l : Logger) (keyvals : List Val) : Logger :=
  let fields := mapCopy [] l.fields
  let fields := addPairs fields keyvals
  { level := l.level, sinks := l.sinks, fields := fields,
    addCaller := l.addCaller, timeFormat := l.timeFormat,
    errorHandler := false, extractor := none, hooks := [] }

/-- The `AsyncLogger` struct from async.go: the wrapped logger plus the bounded
buffer (`chan *formatter.Entry` of capacity `bufferSize`), viewed from the
producer side with no worker consuming. -/
structure AsyncLogger where
  logger : Logger
  buffer : List Entry
  bufferSize : Nat

/-- The `// Build entry` section of `AsyncLogger.logAsync` (async.go lines
116–139): fields are the wrapped logger's default fields overwritten by
call-site attributes; no context extraction and no hooks. -/
def AsyncLogger.asyncEntry (a : AsyncLogger) (ctx : Option Ctx)
    (level : Level) (msg : String) (keyvals : List Attr)
    (time caller : String) : Entry :=
  let fields := mapCopy [] a.logger.fields
  let fields := keyvals.foldl (fun m kv => setKV m kv.key kv.val) fields
  let callerStr := if a.logger.addCaller then caller else ""
  { time := time, level := level.toString, message := msg,
    fields := fields, caller := callerStr, ctx := ctx }

/-- Async dispatch (`AsyncLogger.logAsync`, async.go lines 107–147), returning the buffer
after the call: level gate, entry construction, then the non-blocking
`select` send — enqueue iff the channel has room, else drop. -/
def AsyncLogger.logAsync (a : AsyncLogger) (ctx : Option Ctx) (level : Level)
    (msg : String) (keyvals : List Attr) (time caller : String) : List Entry :=
  if level.toNat < a.logger.level.toNat then a.buffer
  else
    let entry := a.asyncEntry ctx level msg keyvals time caller
    if a.buffer.length < a.bufferSize then a.buffer ++ [entry] else a.buffer

/-- A single producer emitting one record per message in program order
while no worker consumes: fold `logAsync` over the message list. -/
def AsyncLogger.emitAll (a : AsyncLogger) (ctx : Option Ctx) (level : Level)
    (time caller : String) : List String → AsyncLogger
  | [] => a
  | m :: ms =>
    { a with buffer := a.logAsync ctx level m [] time caller
      }.emitAll ctx level time caller ms

/-- Rotating `FileSink` from sink/file.go, abstracted over the file
system: `active` is the content of the file at the base path, and
`backups j` the content of the file at `path + "." + j` (none = absent).
`size` mirrors the `size` field; I/O always succeeds in the model
(rotation and write errors are environmental). -/
structure FileSink where
  size : Int
  maxSize : Int
  maxBackups : Int
  active : String
  backups : Nat → Option String

/-- Rename (`os.Rename(path+"."+src, path+"."+tgt)`) on the abstract backup map;
a failed rename of a missing source is ignored (`_ = os.Rename(...)`),
leaving the map unchanged. -/
def renameB (b : Nat → Option String) (src tgt : Nat) : Nat → Option String :=
  match b src with
  | none => b
  | some c => fun j => if j = tgt then some c else if j = src then none else b j

/-- The backup-shift loop `for i := maxBackups - 1; i >= 1; i--` of
`rotateIfNeededLocked`: rename `.i` to `.(i+1)` from the given index down
to 1. -/
def shiftFrom (b : Nat → Option String) : Nat → (Nat → Option String)
  | 0 => b
  | i + 1 => shiftFrom (renameB b (i + 1) (i + 2)) i

/-- Rotation check (`FileSink.rotateIfNeededLocked`, sink/file.go lines 115–148): no-op
unless `maxSize > 0` and the next write would exceed it; otherwise shift
backups and rename the active file to `.1` (or delete it when no backups
are kept), reopen a fresh file and reset the byte counter. -/
def FileSink.rotateIfNeededLocked (s : FileSink) (nextLen : Nat) : FileSink :=
  if s.maxSize ≤ 0 then s
  else if s.size + nextLen ≤ s.maxSize then s
  else
    let backups :=
      if s.maxBackups > 0 then
        let b := shiftFrom s.backups (s.maxBackups - 1).toNat
        fun j => if j = 1 then some s.active else b j
      else s.backups
    { s with backups := backups, active := "", size := 0 }

/-- Writing (`FileSink.Write`, sink/file.go lines 84–102) on already-formatted
bytes `data`: rotate if needed, then append and account the bytes. -/
def FileSink.write (s : FileSink) (data : String) : FileSink :=
  let s := s.rotateIfNeededLocked data.length
  { s with active := s.active ++ data, size := s.size + data.length }

/-- The `SamplingConfig` struct from async.go (the interval is handled by the
`windowExpired` input of `shouldLogStep`). -/
structure SamplingConfig where
  initial : Int
  thereafter : Int

/-- One call of `SampledLogger.shouldLog` for a fixed key (async.go lines
266–294): `st` is the key's counter (`none` = key absent), `windowExpired`
is `now.After(counter.resetTime)`. Returns the decision and the counter
after the call. When the count exceeds `initial`, both operands of `%`
are positive, where Go's truncated `%` agrees with `Int.emod`. -/
def shouldLogStep (cfg : SamplingConfig) (windowExpired : Bool)
    (st : Option Int) : Bool × Int :=
  match st with
  | none => (true, 1)
  | some c =>
    if windowExpired then (true, 1)
    else
      let c := c + 1
      if c ≤ cfg.initial then (true, c)
      else if cfg.thereafter > 0 ∧ (c - cfg.initial) % cfg.thereafter = 0 then
        (true, c)
      else (false, c)

/-- Running `n` consecutive `shouldLog` calls with the same key inside one active
window, collecting the decisions. -/
def runSampler (cfg : SamplingConfig) : Nat → Option Int → List Bool
  | 0, _ => []
  | n + 1, st =>
    let r := shouldLogStep cfg false st
    r.1 :: runSampler cfg n (some r.2)

/-- The value the last attribute with key `k` assigns, if any: the
"call-site wins, later duplicate wins" view of an attribute list. -/
def lastVal : List Attr → String → Option Val
  | [], _ => none
  | a :: rest, k =>
    match lastVal rest k with
    | some v => some v
    | none => if a.key = k then some a.val else none

/-- The value the last binding of `k` in a pair list assigns, if any
(what the key reads as after copying the list into an empty Go map). -/
def lookupLast : List (String × Val) → String → Option Val
  | [], _ => none
  | p :: rest, k =>
    match lookupLast rest k with
    | some v => some v
    | none => if p.1 = k then some p.2 else none

/-- The value the last well-formed `(string key, value)` pair with key `k`
in a `With` argument list assigns, if any. -/
def pairsVal : List Val → String → Option Val
  | [], _ => none
  | [_], _ => none
  | k :: v :: rest, key =>
    match pairsVal rest key with
    | some w => some w
    | none =>
      match k with
      | .str s => if s = key then some v else none
      | _ => none

/-- Whether a trace contains at least one sink write. -/
def hasWrite (tr : List Event) : Bool :=
  tr.any fun ev =>
    match ev with
    | .write _ _ => true
    | _ => false

/-! Concrete configurations used by the witness statements. -/

/-- A sink whose writes always succeed. -/
def okSink : Sink := fun _ => none

/-- A sink whose writes always fail. -/
def failSink : Sink := fun _ => some "sink failure"

/-- A hook that passes the entry through unchanged. -/
def okHook : Hook := fun _ e => .ok e

/-- A hook that vetoes every entry. -/
def vetoHook : Hook := fun _ _ => .error "veto"

/-- A hook that adds the field `hooked = "yes"` (as in
`TestAsyncLoggerAppliesHooksAndContext`). -/
def addFieldHook : Hook :=
  fun _ e => .ok { e with fields := setKV e.fields "hooked" (.str "yes") }

/-- An extractor producing `trace_id = "abc-123"` (as in
`TestAsyncLoggerAppliesHooksAndContext`). -/
def traceExtractor : Extractor := fun _ => [⟨"trace_id", .str "abc-123"⟩]

/-- A logger at Info level with one succeeding sink and no hooks. -/
def plainLogger : Logger :=
  { level := .info, sinks := [okSink], fields := [], addCaller := true,
    timeFormat := "RFC3339Nano", errorHandler := false, extractor := none,
    hooks := [] }

/-- A logger with an ok hook, a vetoing hook, a trailing hook, a sink and
an error handler: exercises the veto short-circuit. -/
def vetoLogger : Logger :=
  { level := .debug, sinks := [okSink, failSink], fields := [],
    addCaller := false, timeFormat := "RFC3339Nano", errorHandler := true,
    extractor := none, hooks := [okHook, vetoHook, addFieldHook] }

/-- A logger with three sinks, the middle one failing, and an error
handler: exercises fan-out order. -/
def fanoutLogger : Logger :=
  { level := .debug, sinks := [okSink, failSink, okSink], fields := [],
    addCaller := false, timeFormat := "RFC3339Nano", errorHandler := true,
    extractor := none, hooks := [] }

/-- A logger with a default field, an extractor and a hook, as the base
logger of `TestAsyncLoggerAppliesHooksAndContext`. -/
def richLogger : Logger :=
  { level := .info, sinks := [okSink], fields := [("app", .str "demo")],
    addCaller := true, timeFormat := "2006-01-02", errorHandler := true,
    extractor := some traceExtractor, hooks := [addFieldHook] }

/-- The async logger of `TestAsyncLoggerAppliesHooksAndContext`, with an
empty buffer and the default capacity 1000. -/
def testAsync : AsyncLogger :=
  { logger := richLogger, buffer := [], bufferSize := 1000 }

/-- A small async logger (capacity 2) over `plainLogger`. -/
def smallAsync : AsyncLogger :=
  { logger := plainLogger, buffer := [], bufferSize := 2 }

/-- A file sink with `maxSize = 10`, two backups kept and 7 bytes already
written. -/
def fileSink₀ : FileSink :=
  { size := 7, maxSize := 10, maxBackups := 2, active := "0123456",
    backups := fun _ => none }

/-- As `fileSink₀` but keeping no backups (`maxBackups = 0`). -/
def fileSinkNoBackup : FileSink :=
  { size := 7, maxSize := 10, maxBackups := 0, active := "0123456",
    backups := fun _ => none }

/-- A file sink with rotation disabled (`maxSize = 0`). -/
def fileSinkNoRotate : FileSink :=
  { size := 7, maxSize := 0, maxBackups := 2, active := "0123456",
    backups := fun _ => none }

/-! ## Map and fold lemmas -/

theorem getKV_setKV (m : List (String × Val)) (k : String) (v : Val)
    (k' : String) :
    getKV (setKV m k v) k' = if k' = k then some v else getKV m k' := by
  induction m with
  | nil =>
    by_cases h : k' = k
    · simp [setKV, getKV, h]
    · have h2 : ¬k = k' := fun h' => h h'.symm
      simp [setKV, getKV, h, h2]
  | cons p rest ih =>
    obtain ⟨pk, pv⟩ := p
    by_cases hpk : pk = k
    · subst hpk
      by_cases h : k' = pk
      · simp [setKV, getKV, h]
      · have h2 : ¬pk = k' := fun h' => h h'.symm
        simp [setKV, getKV, h, h2]
    · by_cases h : k' = k
      · subst h
        have h2 : ¬pk = k' := hpk
        simp [setKV, getKV, hpk, h2, ih]
      · by_cases hpk' : pk = k'
        · subst hpk'
          simp [setKV, getKV, hpk, h, ih]
        · simp [setKV, getKV, hpk, h, hpk', ih]

theorem getKV_foldl_attrs (kv : List Attr) (m : List (String × Val))
    (k : String) :
    getKV (kv.foldl (fun m a => setKV m a.key a.val) m) k =
      match lastVal kv k with
      | some v => some v
      | none => getKV m k := by
  induction kv generalizing m with
  | nil => simp [lastVal]
  | cons a rest ih =>
    simp only [List.foldl_cons, lastVal]
    rw [ih]
    cases h : lastVal rest k with
    | some v => simp
    | none =>
      simp only [getKV_setKV]
      by_cases hk : a.key = k
      · simp [hk]
      · have : ¬k = a.key := fun h' => hk h'.symm
        simp [hk, this]

theorem getKV_mapCopy (src dst : List (String × Val)) (k : String) :
    getKV (mapCopy dst src) k =
      match lookupLast src k with
      | some v => some v
      | none => getKV dst k := by
  induction src generalizing dst with
  | nil => simp [mapCopy, lookupLast]
  | cons p rest ih =>
    simp only [mapCopy, List.foldl_cons, lookupLast] at *
    rw [ih]
    cases h : lookupLast rest k with
    | some v => simp
    | none =>
      simp only [getKV_setKV]
      by_cases hk : p.1 = k
      · simp [hk]
      · have : ¬k = p.1 := fun h' => hk h'.symm
        simp [hk, this]

theorem getKV_addPairs (m : List (String × Val)) (kvs : List Val)
    (k : String) :
    getKV (addPairs m kvs) k =
      match pairsVal kvs k with
      | some v => some v
      | none => getKV m k := by
  induction m, kvs using addPairs.induct with
  | case1 fields => simp [addPairs, pairsVal]
  | case2 fields head => simp [addPairs, pairsVal]
  | case3 fields v rest s ih =>
    simp only [addPairs, pairsVal]
    rw [ih]
    cases h : pairsVal rest k with
    | some w => simp
    | none =>
      simp only [getKV_setKV]
      by_cases hk : s = k
      · simp [hk]
      · have : ¬k = s := fun h' => hk h'.symm
        simp [hk, this]
  | case4 fields kv v rest hnot ih =>
    simp only [addPairs, pairsVal]
    cases kv with
    | str s => exact absurd rfl (hnot s)
    | int n =>
      rw [ih]
      cases h : pairsVal rest k <;> simp
    | bool b =>
      rw [ih]
      cases h : pairsVal rest k <;> simp

/-! ## Hook-chain and fan-out lemmas -/

theorem runHooks_ok_events (ctx : Option Ctx) (hs : List Hook) :
    ∀ i e e₁, (runHooks ctx i hs e).2 = .ok e₁ →
      (runHooks ctx i hs e).1 = (List.range' i hs.length).map Event.hookRun := by
  induction hs with
  | nil => intro i e e₁ _; simp [runHooks]
  | cons h rest ih =>
    intro i e e₁ hok
    simp only [runHooks] at hok ⊢
    cases hh : h ctx e with
    | error err => rw [hh] at hok; simp at hok
    | ok e' =>
      rw [hh] at hok
      replace hok : (runHooks ctx (i + 1) rest e').2 = Except.ok e₁ := hok
      show Event.hookRun i :: (runHooks ctx (i + 1) rest e').1 =
        List.map Event.hookRun (List.range' i (rest.length + 1))
      rw [List.range'_succ, List.map_cons]
      exact congrArg _ (ih (i + 1) e' e₁ hok)

theorem runHooks_append (ctx : Option Ctx) (hs₂ : List Hook)
    (hs₁ : List Hook) :
    ∀ i e e₁, (runHooks ctx i hs₁ e).2 = .ok e₁ →
      runHooks ctx i (hs₁ ++ hs₂) e =
        ((runHooks ctx i hs₁ e).1 ++ (runHooks ctx (i + hs₁.length) hs₂ e₁).1,
          (runHooks ctx (i + hs₁.length) hs₂ e₁).2) := by
  induction hs₁ with
  | nil =>
    intro i e e₁ hok
    simp only [runHooks] at hok
    cases hok
    simp [runHooks]
  | cons h rest ih =>
    intro i e e₁ hok
    simp only [runHooks, List.cons_append] at hok ⊢
    cases hh : h ctx e with
    | error err => rw [hh] at hok; simp at hok
    | ok e' =>
      rw [hh] at hok
      replace hok : (runHooks ctx (i + 1) rest e').2 = Except.ok e₁ := hok
      show (Event.hookRun i :: (runHooks ctx (i + 1) (rest ++ hs₂) e').1,
            (runHooks ctx (i + 1) (rest ++ hs₂) e').2) =
        ((Event.hookRun i :: (runHooks ctx (i + 1) rest e').1) ++
            (runHooks ctx (i + (rest.length + 1)) hs₂ e₁).1,
          (runHooks ctx (i + (rest.length + 1)) hs₂ e₁).2)
      rw [ih (i + 1) e' e₁ hok]
      have harith : i + 1 + rest.length = i + (rest.length + 1) := by omega
      rw [harith]
      simp

theorem errEvents_false (r : Option String) : errEvents false r = [] := by
  cases r <;> simp [errEvents]

theorem fanOut_mem_no_handler (e : Entry) (ss : List Sink) :
    ∀ i ev, ev ∈ fanOut false i ss e → ∃ j, ev = .write j e := by
  induction ss with
  | nil => intro i ev h; simp [fanOut] at h
  | cons s rest ih =>
    intro i ev h
    simp only [fanOut, errEvents_false, List.nil_append, List.mem_cons] at h
    cases h with
    | inl h => exact ⟨i, h⟩
    | inr h => exact ih (i + 1) ev h

theorem hasWrite_fanOut_cons (handlerSet : Bool) (i : Nat) (s : Sink)
    (ss : List Sink) (e : Entry) :
    hasWrite (fanOut handlerSet i (s :: ss) e) = true := by
  simp [fanOut, hasWrite]

theorem emitAll_buffer (lg : Logger) (cap : Nat) (ctx : Option Ctx)
    (lvl : Level) (t c : String) (hg : lg.level.toNat ≤ lvl.toNat) :
    ∀ (msgs : List String) (buf : List Entry), buf.length ≤ cap →
      (AsyncLogger.emitAll ⟨lg, buf, cap⟩ ctx lvl t c msgs).buffer =
        buf ++ ((msgs.map fun m =>
          AsyncLogger.asyncEntry ⟨lg, [], cap⟩ ctx lvl m [] t c).take
            (cap - buf.length)) := by
  intro msgs
  induction msgs with
  | nil => intro buf _; simp [AsyncLogger.emitAll]
  | cons m ms ih =>
    intro buf hlen
    have hgate : ¬lvl.toNat < lg.level.toNat := by omega
    by_cases hfull : buf.length < cap
    · have step : AsyncLogger.logAsync ⟨lg, buf, cap⟩ ctx lvl m [] t c =
          buf ++ [AsyncLogger.asyncEntry ⟨lg, [], cap⟩ ctx lvl m [] t c] := by
        simp [AsyncLogger.logAsync, hgate, hfull]
        rfl
      show (AsyncLogger.emitAll
          ⟨lg, AsyncLogger.logAsync ⟨lg, buf, cap⟩ ctx lvl m [] t c, cap⟩
          ctx lvl t c ms).buffer = _
      rw [step]
      rw [ih _ (by simp; omega)]
      have hsub : cap - buf.length = (cap - (buf.length + 1)) + 1 := by omega
      simp only [List.map_cons, hsub, List.take_succ_cons, List.length_append,
        List.length_cons, List.length_nil]
      simp
    · have hbuf : buf.length = cap := by omega
      have step : AsyncLogger.logAsync ⟨lg, buf, cap⟩ ctx lvl m [] t c = buf := by
        simp [AsyncLogger.logAsync, hgate, hfull]
      show (AsyncLogger.emitAll
          ⟨lg, AsyncLogger.logAsync ⟨lg, buf, cap⟩ ctx lvl m [] t c, cap⟩
          ctx lvl t c ms).buffer = _
      rw [step]
      rw [ih _ hlen]
      have hsub : cap - buf.length = 0 := by omega
      simp [hsub]

/-! ## Claim theorems -/

/-- C2: for every configured minimum level `L` and record level `R`, a
synchronous `log` call delivers the record (some sink receives a write)
iff `R >= L`; in particular `R = L` delivers, and `R < L` returns
immediately with an empty trace (no record built, no destination
written). -/
theorem level_gate_delivers_iff (l : Logger) (ctx : Option Ctx) (lvl : Level)
    (msg : String) (kv : List Attr) (t c : String)
    (hh : l.hooks = []) (hs : l.sinks ≠ []) :
    (lvl.toNat < l.level.toNat → l.log ctx lvl msg kv t c = []) ∧
    (l.level.toNat ≤ lvl.toNat ↔ hasWrite (l.log ctx lvl msg kv t c) = true) := by
  by_cases hg : lvl.toNat < l.level.toNat
  · constructor
    · intro _; simp [Logger.log, hg]
    · constructor
      · intro hle; omega
      · intro hw
        simp [Logger.log, hg, hasWrite] at hw
  · obtain ⟨s, ss, hss⟩ : ∃ s ss, l.sinks = s :: ss := by
      cases hsk : l.sinks with
      | nil => exact absurd hsk hs
      | cons s ss => exact ⟨s, ss, rfl⟩
    constructor
    · intro hlt; omega
    · constructor
      · intro _
        simp only [Logger.log, hg, if_false, hh, runHooks]
        rw [hss]
        simp [hasWrite_fanOut_cons, List.any_append, hasWrite] at *
        simp [fanOut]
      · intro _; omega

/-- C5 (amended): level parsing accepts exactly the all-lowercase and
all-uppercase spellings of debug, info, warn, error and fatal, plus the
alias warning/WARNING for warn; every other input — including mixed-case
spellings — maps to Info, and parsing never errors (it is total). -/
theorem parseLevel_amended :
    (ParseLevel "debug" = .debug ∧ ParseLevel "DEBUG" = .debug) ∧
    (ParseLevel "info" = .info ∧ ParseLevel "INFO" = .info) ∧
    (ParseLevel "warn" = .warn ∧ ParseLevel "WARN" = .warn ∧
      ParseLevel "warning" = .warn ∧ ParseLevel "WARNING" = .warn) ∧
    (ParseLevel "error" = .error ∧ ParseLevel "ERROR" = .error) ∧
    (ParseLevel "fatal" = .fatal ∧ ParseLevel "FATAL" = .fatal) ∧
    ∀ s, s ∉ (["debug", "DEBUG", "info", "INFO", "warn", "WARN", "warning",
        "WARNING", "error", "ERROR", "fatal", "FATAL"] : List String) →
      ParseLevel s = .info := by
  refine ⟨by decide, by decide, by decide, by decide, by decide, ?_⟩
  intro s h
  simp only [List.mem_cons, List.not_mem_nil, or_false, not_or] at h
  unfold ParseLevel
  split <;> simp_all

/-- C5 (counterexample): the mixed-case spelling "Debug" does not parse
to Debug — it falls through to the Info default. -/
theorem parseLevel_mixed_case_counterexample :
    ParseLevel "Debug" = Level.info ∧ Level.info ≠ Level.debug :=
  ⟨rfl, by decide⟩

/-- C5 (witness): applying the amended theorem at the mixed-case input
"Warning". -/
theorem parseLevel_amended_witness :
    "Warning" ∉ (["debug", "DEBUG", "info", "INFO", "warn", "WARN",
        "warning", "WARNING", "error", "ERROR", "fatal", "FATAL"] :
        List String) ∧ ParseLevel "Warning" = .info :=
  ⟨by decide, parseLevel_amended.2.2.2.2.2 "Warning" (by decide)⟩

/-- C2 (witness): on a logger at Info level with one sink and no hooks, a
Debug call produces no events at all and an Info call produces a write. -/
theorem level_gate_delivers_iff_witness :
    plainLogger.log none .debug "m" [] "t" "c" = [] ∧
    hasWrite (plainLogger.log none .info "m" [] "t" "c") = true :=
  ⟨(level_gate_delivers_iff plainLogger none .debug "m" [] "t" "c" rfl
      (by simp [plainLogger])).1 (by decide),
    (level_gate_delivers_iff plainLogger none .info "m" [] "t" "c" rfl
      (by simp [plainLogger])).2.mp (by decide)⟩

/-- C9: with `Initial = 2, Thereafter = 3` nine same-key calls in one
window allow exactly calls 1, 2, 5 and 8; in general a within-window call
increments the count, is allowed unconditionally while the count stays at
or below `Initial`, is allowed above `Initial` exactly when `Thereafter`
is positive and `(count - Initial) mod Thereafter == 0`, and is never
allowed above `Initial` when `Thereafter <= 0`. -/
theorem sampler_policy (cfg : SamplingConfig) (c : Int) :
    runSampler ⟨2, 3⟩ 9 none =
      [true, true, false, false, true, false, false, true, false] ∧
    (shouldLogStep cfg false (some c)).2 = c + 1 ∧
    (c + 1 ≤ cfg.initial → (shouldLogStep cfg false (some c)).1 = true) ∧
    (cfg.initial < c + 1 →
      ((shouldLogStep cfg false (some c)).1 = true ↔
        0 < cfg.thereafter ∧ (c + 1 - cfg.initial) % cfg.thereafter = 0)) ∧
    (cfg.thereafter ≤ 0 → cfg.initial < c + 1 →
      (shouldLogStep cfg false (some c)).1 = false) := by
  have key : shouldLogStep cfg false (some c) =
      if c + 1 ≤ cfg.initial then (true, c + 1)
      else if 0 < cfg.thereafter ∧ (c + 1 - cfg.initial) % cfg.thereafter = 0
        then (true, c + 1)
      else (false, c + 1) := by
    show (if false = true then (true, 1)
      else
        if c + 1 ≤ cfg.initial then (true, c + 1)
        else if cfg.thereafter > 0 ∧ (c + 1 - cfg.initial) % cfg.thereafter = 0
          then (true, c + 1)
        else (false, c + 1)) = _
    rw [if_neg (by simp)]
  refine ⟨by decide, ?_, ?_, ?_, ?_⟩
  · rw [key]
    split_ifs <;> rfl
  · intro h
    rw [key, if_pos h]
  · intro h
    rw [key, if_neg (by omega)]
    split_ifs with h2
    · exact iff_of_true rfl h2
    · exact iff_of_false (by simp) h2
  · intro ht h
    rw [key, if_neg (by omega), if_neg (by intro hc; omega)]

/-- C9 (witness): applying the policy theorem inside a window with
`Initial = 2, Thereafter = 3` at counts 1 and 4, and with
`Thereafter = 0` at count 2. -/
theorem sampler_policy_witness :
    (shouldLogStep ⟨2, 3⟩ false (some 1)).1 = true ∧
    (shouldLogStep ⟨2, 3⟩ false (some 4)).1 = true ∧
    (shouldLogStep ⟨2, 0⟩ false (some 2)).1 = false :=
  ⟨(sampler_policy ⟨2, 3⟩ 1).2.2.1 (by decide),
    ((sampler_policy ⟨2, 3⟩ 4).2.2.2.1 (by decide)).mpr (by decide),
    (sampler_policy ⟨2, 0⟩ 2).2.2.2.2 (by decide) (by decide)⟩

/-- C3: when a hook vetoes (returns an error) a record that passed the
level gate, the trace is exactly the invocations of hooks 0 through the
vetoing one — no later hook runs, zero destinations receive a write, and
the error handler is never invoked (and `log` surfaces nothing to the
caller: its only output is the trace). -/
theorem hook_veto_drops (l : Logger) (ctx : Option Ctx) (lvl : Level)
    (msg : String) (kv : List Attr) (t c : String)
    (hs₁ hs₂ : List Hook) (h : Hook) (e₁ : Entry) (err : String)
    (hg : l.level.toNat ≤ lvl.toNat)
    (hhooks : l.hooks = hs₁ ++ h :: hs₂)
    (h1 : (runHooks ctx 0 hs₁ (l.buildEntry ctx lvl msg kv t c)).2 = .ok e₁)
    (h2 : h ctx e₁ = .error err) :
    l.log ctx lvl msg kv t c =
      (List.range' 0 (hs₁.length + 1)).map Event.hookRun ∧
    (∀ i e, Event.write i e ∉ l.log ctx lvl msg kv t c) ∧
    (∀ s, Event.handleErr s ∉ l.log ctx lvl msg kv t c) := by
  have hgate : ¬lvl.toNat < l.level.toNat := by omega
  have hrest : runHooks ctx (0 + hs₁.length) (h :: hs₂) e₁ =
      ([.hookRun (0 + hs₁.length)], .error err) := by
    simp only [runHooks, h2]
  have hall := runHooks_append ctx (h :: hs₂) hs₁ 0
    (l.buildEntry ctx lvl msg kv t c) e₁ h1
  rw [hrest] at hall
  have hevs := runHooks_ok_events ctx hs₁ 0
    (l.buildEntry ctx lvl msg kv t c) e₁ h1
  have htrace : l.log ctx lvl msg kv t c =
      (List.range' 0 (hs₁.length + 1)).map Event.hookRun := by
    simp only [Logger.log, hgate, if_false, hhooks]
    rw [hall]
    simp only [hevs, Nat.zero_add]
    rw [List.range'_concat, List.map_append]
    simp
  refine ⟨htrace, ?_, ?_⟩
  · intro i e hmem
    rw [htrace] at hmem
    simp only [List.mem_map] at hmem
    obtain ⟨j, _, hj⟩ := hmem
    exact absurd hj (by simp)
  · intro s hmem
    rw [htrace] at hmem
    simp only [List.mem_map] at hmem
    obtain ⟨j, _, hj⟩ := hmem
    exact absurd hj (by simp)

/-- C3 (witness): on a logger whose second hook vetoes (with a sink and
an error handler configured), a Debug call runs exactly hooks 0 and 1 and
produces no write and no handler event. -/
theorem hook_veto_drops_witness :
    vetoLogger.log none .warn "m" [] "t" "c" =
      (List.range' 0 2).map Event.hookRun ∧
    (∀ i e, Event.write i e ∉ vetoLogger.log none .warn "m" [] "t" "c") ∧
    (∀ s, Event.handleErr s ∉ vetoLogger.log none .warn "m" [] "t" "c") :=
  hook_veto_drops vetoLogger none .warn "m" [] "t" "c"
    [okHook] [addFieldHook] vetoHook
    (vetoLogger.buildEntry none .warn "m" [] "t" "c") "veto"
    (by decide) rfl rfl rfl

/-- C4: a single synchronous call on a logger with destinations
`[A, B, C]` and no hooks writes to A, then B, then C in registration
order; each destination's error is independently turned into an
error-handler invocation exactly when a handler is configured (silently
discarded otherwise), nothing is propagated to the caller, and a failing
destination does not suppress the writes to the later ones. -/
theorem fanout_in_order (l : Logger) (A B C : Sink) (ctx : Option Ctx)
    (lvl : Level) (msg : String) (kv : List Attr) (t c : String)
    (hg : l.level.toNat ≤ lvl.toNat) (hh : l.hooks = [])
    (hs : l.sinks = [A, B, C]) :
    ∀ e, e = l.buildEntry ctx lvl msg kv t c →
      l.log ctx lvl msg kv t c =
        [Event.write 0 e] ++ errEvents l.errorHandler (A e) ++
        [Event.write 1 e] ++ errEvents l.errorHandler (B e) ++
        [Event.write 2 e] ++ errEvents l.errorHandler (C e) ++
        (if lvl = .fatal then [Event.exitProcess] else []) := by
  intro e he
  subst he
  have hgate : ¬lvl.toNat < l.level.toNat := by omega
  simp only [Logger.log, hgate, if_false, hh, runHooks, hs, fanOut]
  simp [List.append_assoc]

/-- C4 (witness): on a logger with sinks [ok, failing, ok] and an error
handler, an Info call yields write 0, write 1, a handler event for the
middle failure, then write 2 — the later destination still receives its
write. -/
theorem fanout_in_order_witness :
    fanoutLogger.log none .info "m" [] "t" "c" =
      [Event.write 0 (fanoutLogger.buildEntry none .info "m" [] "t" "c")] ++
      errEvents fanoutLogger.errorHandler
        (okSink (fanoutLogger.buildEntry none .info "m" [] "t" "c")) ++
      [Event.write 1 (fanoutLogger.buildEntry none .info "m" [] "t" "c")] ++
      errEvents fanoutLogger.errorHandler
        (failSink (fanoutLogger.buildEntry none .info "m" [] "t" "c")) ++
      [Event.write 2 (fanoutLogger.buildEntry none .info "m" [] "t" "c")] ++
      errEvents fanoutLogger.errorHandler
        (okSink (fanoutLogger.buildEntry none .info "m" [] "t" "c")) ++
      (if Level.info = Level.fatal then [Event.exitProcess] else []) :=
  fanout_in_order fanoutLogger okSink failSink okSink none .info "m" [] "t" "c"
    (by decide) rfl rfl _ rfl

/-- C6: for a call through a configured context extractor, the delivered
field mapping resolves every key by the precedence
default fields < context-extracted fields < call-site fields: the last
call-site attribute with the key wins, else the last extracted attribute,
else the default-field binding. -/
theorem field_merge_precedence (l : Logger) (cx : Ctx) (f : Extractor)
    (lvl : Level) (msg : String) (kv : List Attr) (t c k : String)
    (hx : l.extractor = some f) :
    getKV (l.buildEntry (some cx) lvl msg kv t c).fields k =
      match lastVal kv k with
      | some v => some v
      | none =>
        match lastVal (f cx) k with
        | some v => some v
        | none => lookupLast l.fields k := by
  simp only [Logger.buildEntry, hx]
  by_cases hlen : (f cx).length > 0
  · simp only [hlen, if_true, if_pos]
    rw [List.foldl_append, getKV_foldl_attrs, getKV_foldl_attrs, getKV_mapCopy]
    cases hkv : lastVal kv k with
    | some v => simp [hkv]
    | none =>
      cases hfx : lastVal (f cx) k with
      | some v => simp [hkv, hfx]
      | none =>
        cases hlast : lookupLast l.fields k <;>
          simp [hkv, hfx, hlast, getKV]
  · have hnil : f cx = [] := List.length_eq_zero.mp (by omega)
    simp only [hlen, if_false]
    rw [getKV_foldl_attrs, getKV_mapCopy, hnil]
    cases hkv : lastVal kv k with
    | some v => simp [hkv, lastVal]
    | none =>
      cases hlast : lookupLast l.fields k <;>
        simp [hkv, hlast, lastVal, getKV]

/-- C6 (witness): with a default field `app`, an extractor producing
`trace_id = "abc-123"` and a call-site attribute overriding `trace_id`,
the delivered value of `trace_id` is the call-site one. -/
theorem field_merge_precedence_witness :
    getKV (richLogger.buildEntry (some 0) .info "m"
        [⟨"trace_id", Val.str "call"⟩] "t" "c").fields "trace_id" =
      some (Val.str "call") :=
  (field_merge_precedence richLogger 0 traceExtractor .info "m"
    [⟨"trace_id", Val.str "call"⟩] "t" "c" "trace_id" rfl).trans (by decide)

/-- C10: the child logger returned by `With` keeps the parent's level,
sinks, caller setting and time format; its fields are a copy of the
parent's default fields extended by the given string-keyed pairs (a pair
wins over a parent field, a later pair over an earlier one); and it has
no hooks, no context extractor and no error handler even when the parent
had them — so a child log call never produces a hook invocation or an
error-handler event (sink errors are silently discarded). -/
theorem with_child_config (l : Logger) (kvs : List Val) :
    (l.With kvs).level = l.level ∧
    (l.With kvs).sinks = l.sinks ∧
    (l.With kvs).addCaller = l.addCaller ∧
    (l.With kvs).timeFormat = l.timeFormat ∧
    (l.With kvs).hooks = [] ∧
    (l.With kvs).extractor = none ∧
    (l.With kvs).errorHandler = false ∧
    (∀ k, getKV (l.With kvs).fields k =
      match pairsVal kvs k with
      | some v => some v
      | none => lookupLast l.fields k) ∧
    (∀ ctx lvl msg kv t c ev, ev ∈ (l.With kvs).log ctx lvl msg kv t c →
      (∀ i, ev ≠ Event.hookRun i) ∧ (∀ s, ev ≠ Event.handleErr s)) := by
  refine ⟨rfl, rfl, rfl, rfl, rfl, rfl, rfl, ?_, ?_⟩
  · intro k
    show getKV (addPairs (mapCopy [] l.fields) kvs) k = _
    rw [getKV_addPairs]
    cases hkv : pairsVal kvs k with
    | some v => simp [hkv]
    | none =>
      rw [getKV_mapCopy]
      cases hlast : lookupLast l.fields k <;> simp [hkv, hlast, getKV]
  · intro ctx lvl msg kv t c ev hmem
    by_cases hg : lvl.toNat < (l.With kvs).level.toNat
    · simp [Logger.log, hg] at hmem
    · have hhooks : (l.With kvs).hooks = [] := rfl
      simp only [Logger.log, hg, if_false, hhooks, runHooks,
        List.nil_append] at hmem
      rw [List.mem_append] at hmem
      cases hmem with
      | inl hmem =>
        obtain ⟨j, hj⟩ :=
          fanOut_mem_no_handler _ ((l.With kvs).sinks) 0 ev hmem
        subst hj
        exact ⟨fun i => by simp, fun s => by simp⟩
      | inr hmem =>
        by_cases hf : lvl = .fatal
        · simp only [hf, if_true, List.mem_singleton] at hmem
          subst hmem
          exact ⟨fun i => by simp, fun s => by simp⟩
        · simp [hf] at hmem

/-- C10 (witness): a child of a logger that has a vetoing hook and an
error handler, with an added pair, keeps the sinks and field but its
Warn-call trace contains no hook or handler event (applying the claim
theorem at the concrete write event of the child's trace). -/
theorem with_child_config_witness :
    (vetoLogger.With [Val.str "request_id", Val.str "abc-123"]).hooks = [] ∧
    getKV (vetoLogger.With [Val.str "request_id", Val.str "abc-123"]).fields
        "request_id" = some (Val.str "abc-123") ∧
    ∀ ev ∈ (vetoLogger.With [Val.str "request_id", Val.str "abc-123"]).log
        none .warn "m" [] "t" "c",
      (∀ i, ev ≠ Event.hookRun i) ∧ (∀ s, ev ≠ Event.handleErr s) :=
  ⟨(with_child_config vetoLogger [Val.str "request_id", Val.str "abc-123"]).2.2.2.2.1,
    ((with_child_config vetoLogger
        [Val.str "request_id", Val.str "abc-123"]).2.2.2.2.2.2.2.1
      "request_id").trans (by decide),
    fun ev hmem =>
      (with_child_config vetoLogger
        [Val.str "request_id", Val.str "abc-123"]).2.2.2.2.2.2.2.2
        none .warn "m" [] "t" "c" ev hmem⟩

/-- C7: with queue capacity C, a single producer whose records pass the
level gate, and no worker consuming, the non-blocking enqueue is a total
function of the producer state: from an empty queue the first C records
are enqueued in program order and stay eligible for delivery, and every
later record is silently dropped, leaving the queue unchanged. -/
theorem async_drop_on_full (lg : Logger) (cap : Nat) (ctx : Option Ctx)
    (lvl : Level) (t c : String) (msgs : List String)
    (hg : lg.level.toNat ≤ lvl.toNat) :
    (AsyncLogger.emitAll ⟨lg, [], cap⟩ ctx lvl t c msgs).buffer =
      (msgs.map fun m =>
        AsyncLogger.asyncEntry ⟨lg, [], cap⟩ ctx lvl m [] t c).take cap ∧
    ∀ (buf : List Entry) (m : String), cap ≤ buf.length →
      AsyncLogger.logAsync ⟨lg, buf, cap⟩ ctx lvl m [] t c = buf := by
  constructor
  · have h := emitAll_buffer lg cap ctx lvl t c hg msgs [] (by simp)
    simpa using h
  · intro buf m hfull
    have hgate : ¬lvl.toNat < lg.level.toNat := by omega
    have hlt : ¬buf.length < cap := by omega
    simp [AsyncLogger.logAsync, hgate, hlt]

/-- C7 (witness): a capacity-2 queue receiving three Warn records keeps
exactly the first two, and a full buffer is left unchanged by a further
call. -/
theorem async_drop_on_full_witness :
    (AsyncLogger.emitAll ⟨plainLogger, [], 2⟩ none .warn "t" "c"
        ["a", "b", "cc"]).buffer =
      ((["a", "b", "cc"].map fun m =>
        AsyncLogger.asyncEntry ⟨plainLogger, [], 2⟩ none .warn m [] "t"
          "c").take 2) :=
  (async_drop_on_full plainLogger 2 none .warn "t" "c" ["a", "b", "cc"]
    (by decide)).1

/-- C8: with `maxSize > 0` a write triggers rotation iff
`size + len(data) > maxSize`; rotation happens before the write, so the
incoming bytes land entirely in the fresh file (`active = data`), the
byte counter resets and then accounts exactly the new write; with
`maxBackups == 0` the rotation deletes the active file rather than
renaming it (the backup map is unchanged), while with `maxBackups > 0`
the old active content becomes backup `.1`; and with `maxSize <= 0` (or
when the write fits) no rotation occurs: the bytes append and the counter
grows. -/
theorem file_rotation (s : FileSink) (data : String) :
    (0 < s.maxSize → s.maxSize < s.size + data.length →
      (s.write data).active = data ∧
      (s.write data).size = data.length ∧
      (s.maxBackups = 0 → (s.write data).backups = s.backups) ∧
      (0 < s.maxBackups → (s.write data).backups 1 = some s.active)) ∧
    ((s.maxSize ≤ 0 ∨ s.size + data.length ≤ s.maxSize) →
      (s.write data).active = s.active ++ data ∧
      (s.write data).size = s.size + data.length ∧
      (s.write data).backups = s.backups) := by
  constructor
  · intro h1 h2
    have hn1 : ¬s.maxSize ≤ 0 := by omega
    have hn2 : ¬s.size + (data.length : Int) ≤ s.maxSize := by omega
    refine ⟨?_, ?_, ?_, ?_⟩
    · simp [FileSink.write, FileSink.rotateIfNeededLocked, hn1, hn2,
        String.empty_append]
    · simp [FileSink.write, FileSink.rotateIfNeededLocked, hn1, hn2]
    · intro hb
      have hb' : ¬s.maxBackups > 0 := by omega
      simp [FileSink.write, FileSink.rotateIfNeededLocked, hn1, hn2, hb']
    · intro hb
      simp [FileSink.write, FileSink.rotateIfNeededLocked, hn1, hn2, hb]
  · intro h
    cases h with
    | inl h =>
      simp [FileSink.write, FileSink.rotateIfNeededLocked, h]
    | inr h =>
      by_cases h0 : s.maxSize ≤ 0
      · simp [FileSink.write, FileSink.rotateIfNeededLocked, h0]
      · simp [FileSink.write, FileSink.rotateIfNeededLocked, h0, h]

/-- C8 (witness): a 7-byte file with `maxSize = 10`: a 5-byte write
rotates (fresh file holds exactly the 5 bytes, counter 5, old content at
backup `.1`); with `maxBackups = 0` the backup map stays empty; with
`maxSize = 0` the same write appends instead. -/
theorem file_rotation_witness :
    (fileSink₀.write "abcde").active = "abcde" ∧
    (fileSink₀.write "abcde").backups 1 = some "0123456" ∧
    (fileSinkNoBackup.write "abcde").backups = fileSinkNoBackup.backups ∧
    (fileSinkNoRotate.write "abcde").active = "0123456" ++ "abcde" :=
  ⟨((file_rotation fileSink₀ "abcde").1 (by decide) (by decide)).1,
    ((file_rotation fileSink₀ "abcde").1 (by decide) (by decide)).2.2.2
      (by decide),
    ((file_rotation fileSinkNoBackup "abcde").1 (by decide)
      (by decide)).2.2.1 rfl,
    ((file_rotation fileSinkNoRotate "abcde").2 (Or.inl (by decide))).1⟩

/-- C1 (code bug): at the input of `TestAsyncLoggerAppliesHooksAndContext`
— a wrapped logger with a context extractor producing `trace_id` and a
hook adding `hooked` — the async path enqueues a record carrying neither
the extracted field nor the hook mutation: `logAsync` skips the hook
chain and context extraction unconditionally, even when they are
configured, contradicting the repository's own test. -/
theorem async_skips_hooks_and_extractor :
    (AsyncLogger.logAsync testAsync (some 0) .info "hello" [] "t" "c").length
        = 1 ∧
    ∀ e ∈ AsyncLogger.logAsync testAsync (some 0) .info "hello" [] "t" "c",
      getKV e.fields "trace_id" = none ∧ getKV e.fields "hooked" = none := by
  decide

end Sloggergo
